import Mathlib

/-!
Verification of the medifresh-stock synchronization core and storage
operations, shallowly embedded from the TypeScript sources:
`server/storage.ts`, `shared/schema.ts`, the Express/WebSocket route
module, and `client/src/lib/websocket-context.tsx`.

Stock quantities are modelled as `Int`: the data model declares
`currentStock`, `pendingArrival` and `threshold` integers, and every
arithmetic step the code performs on them (addition, subtraction,
`Math.max`, comparison) is exact over the integers.  The one fractional
constant, `threshold * 1.5` in `getStockStatus`, is computed in ℚ exactly
as the source computes it (JavaScript evaluates it exactly for these
magnitudes).  The in-memory `Map` keyed by string id is modelled as a
`List StockItem` in insertion order: `Map.get` is `List.find?` on the id,
`Map.set` replaces in place when the key is present and appends
otherwise, and `Map.values()` enumerates in insertion order.
-/

namespace Medifresh

/-- A stock record, from `stockItemSchema` in `shared/schema.ts`. -/
structure StockItem where
  id : String
  reference : String
  name : String
  currentStock : Int
  pendingArrival : Int
  threshold : Int
  unit : String
  location : Option String
  lastUpdated : String
  deriving Repr, DecidableEq

/-- Insert payload, `insertStockItemSchema` (`stockItemSchema` without
`id` and `lastUpdated`; zod fills the defaults for `pendingArrival` and
`threshold` at parse time, so both are present here). -/
structure InsertStockItem where
  reference : String
  name : String
  currentStock : Int
  pendingArrival : Int
  threshold : Int
  unit : String
  location : Option String
  deriving Repr, DecidableEq

/-- Update payload, `updateStockItemSchema = stockItemSchema.partial().required({id})`:
`id` mandatory, every other field optional.  A field absent from the JSON
body is absent from the parsed object, so the TS spread `{...existing, ...item}`
keeps the existing value exactly when the `Option` is `none`. -/
structure UpdateStockItem where
  id : String
  reference : Option String
  name : Option String
  currentStock : Option Int
  pendingArrival : Option Int
  threshold : Option Int
  unit : Option String
  location : Option String
  deriving Repr, DecidableEq

/-- JavaScript `x || 0` on a number: the only falsy integer is 0, so this
is the identity (kept to mirror the source text literally). -/
def orZero (x : Int) : Int := if x = 0 then 0 else x

/-- JavaScript `String.prototype.toLowerCase()` on the ASCII references
this code handles: lower-case every character. -/
def toLowerCase (s : String) : String := ⟨s.data.map Char.toLower⟩

/-- The store: `Map<string, StockItem>` in insertion order. -/
abbrev Store := List StockItem

/-- `this.stock.get(id)`. -/
def storeGet (s : Store) (id : String) : Option StockItem :=
  s.find? (fun x => x.id = id)

/-- `this.stock.set(id, v)`: replace in place if the key exists, else append. -/
def storeSet (s : Store) (id : String) (v : StockItem) : Store :=
  if s.any (fun x => x.id = id) then
    s.map (fun x => if x.id = id then v else x)
  else
    s ++ [v]

/-! ## Status derivation (`getStockStatus` in `shared/schema.ts`) -/
inductive StockStatus where
  | critical | low | adequate | high
  deriving Repr, DecidableEq

/-- `getStockStatus` from `shared/schema.ts`, line for line. -/
def getStockStatus (item : StockItem) : StockStatus :=
  let available := item.currentStock + orZero item.pendingArrival
  let threshold := orZero item.threshold
  if available ≤ 0 then .critical
  else if available < threshold then .low
  else if (available : ℚ) ≤ (threshold : ℚ) * 1.5 then .adequate
  else .high

/-- `getMissingQuantity` from `shared/schema.ts`. -/
def getMissingQuantity (item : StockItem) : Int :=
  let available := item.currentStock + orZero item.pendingArrival
  let threshold := orZero item.threshold
  max 0 (threshold - available)

/-- Modelled from the spec: the status derivation rule exactly as §3 of the
spec states it, over `available = currentStock + pendingArrival` and
`threshold`. -/
def specStatus (available threshold : Int) : StockStatus :=
  if available ≤ 0 then .critical
  else if available < threshold then .low
  else if (available : ℚ) ≤ (threshold : ℚ) * 1.5 then .adequate
  else .high

/-- Convenience constructor for concrete records in examples. -/
def mkItem (cs pa th : Int) : StockItem :=
  { id := "it-1", reference := "GL-100", name := "Gants latex",
    currentStock := cs, pendingArrival := pa, threshold := th,
    unit := "unités", location := none, lastUpdated := "2025-12-03T00:00:00Z" }

/-! ## Storage operations (`MemStorage` in `server/storage.ts`)

`randomUUID()` is modelled by an ambient id supply `freshId : Nat → String`
threaded with a counter; the theorems that depend on freshness assume the
supplied ids do not collide with ids already in the store.  `new Date().toISOString()`
is an opaque `now : String` parameter. -/
/-- `MemStorage.createStock`: build the record with a fresh id, defaulted
`pendingArrival`/`threshold`, a fresh timestamp, and `set` it. -/
def createStock (now id : String) (s : Store) (item : InsertStockItem) :
    Store × StockItem :=
  let newItem : StockItem :=
    { id := id, reference := item.reference, name := item.name,
      currentStock := item.currentStock,
      pendingArrival := orZero item.pendingArrival,
      threshold := orZero item.threshold,
      unit := item.unit, location := item.location, lastUpdated := now }
  (storeSet s id newItem, newItem)

/-- `MemStorage.updateStock`: `{...existing, ...item, lastUpdated: now}` —
a field present in the update payload overrides, an absent one keeps the
existing value; returns `undefined` (here `none`) when the id is unknown. -/
def updateStock (now : String) (s : Store) (item : UpdateStockItem) :
    Option (Store × StockItem) :=
  match storeGet s item.id with
  | none => none
  | some existing =>
    let updatedItem : StockItem :=
      { id := item.id,
        reference := item.reference.getD existing.reference,
        name := item.name.getD existing.name,
        currentStock := item.currentStock.getD existing.currentStock,
        pendingArrival := item.pendingArrival.getD existing.pendingArrival,
        threshold := item.threshold.getD existing.threshold,
        unit := item.unit.getD existing.unit,
        location := match item.location with
          | some l => some l
          | none => existing.location,
        lastUpdated := now }
    some (storeSet s item.id updatedItem, updatedItem)

/-- One `(itemId, quantity)` pair of an arrivals batch. -/
structure Arrival where
  itemId : String
  quantity : Int
  deriving Repr, DecidableEq

/-- `MemStorage.applyArrivals`: the `for` loop over the batch, threading the
mutated store and the `updatedItems` accumulator.  Returns
`(final store, updatedItems)`. -/
def applyArrivals (now : String) (s : Store) : List Arrival → Store × List StockItem
  | [] => (s, [])
  | arrival :: rest =>
    match storeGet s arrival.itemId with
    | none => applyArrivals now s rest
    | some existing =>
      let updatedItem : StockItem :=
        { existing with
          currentStock := existing.currentStock + arrival.quantity,
          pendingArrival := max 0 (orZero existing.pendingArrival - arrival.quantity),
          lastUpdated := now }
      let r := applyArrivals now (storeSet s arrival.itemId updatedItem) rest
      (r.1, updatedItem :: r.2)

/-- The per-row lookup inside `MemStorage.importStock`:
`Array.from(this.stock.values()).find(s => s.reference.toLowerCase() === item.reference.toLowerCase())`. -/
def lookupByRef (s : Store) (ref : String) : Option StockItem :=
  s.find? (fun x => toLowerCase x.reference = toLowerCase ref)

/-- `MemStorage.importStock`: the `for` loop over the rows.  `n` is the id
counter (`freshId n` stands for the next `randomUUID()`).  Returns
`(final store, final counter, imported)`. -/
def importStock (now : String) (freshId : Nat → String) :
    Store → Nat → List InsertStockItem → Store × Nat × Nat
  | s, n, [] => (s, n, 0)
  | s, n, item :: rest =>
    match lookupByRef s item.reference with
    | some existingByRef =>
      let updatedItem : StockItem :=
        { existingByRef with
          name := item.name,
          currentStock := item.currentStock,
          pendingArrival := orZero item.pendingArrival,
          threshold := orZero item.threshold,
          unit := item.unit,
          location := item.location,
          lastUpdated := now }
      let r := importStock now freshId (storeSet s existingByRef.id updatedItem) n rest
      (r.1, r.2.1, r.2.2 + 1)
    | none =>
      let id := freshId n
      let newItem : StockItem :=
        { id := id, reference := item.reference, name := item.name,
          currentStock := item.currentStock,
          pendingArrival := orZero item.pendingArrival,
          threshold := orZero item.threshold,
          unit := item.unit, location := item.location, lastUpdated := now }
      let r := importStock now freshId (storeSet s id newItem) (n + 1) rest
      (r.1, r.2.1, r.2.2 + 1)

/-- Convenience constructor for concrete insert rows in examples. -/
def mkInsert (ref nm : String) (cs pa th : Int) : InsertStockItem :=
  { reference := ref, name := nm, currentStock := cs, pendingArrival := pa,
    threshold := th, unit := "unités", location := none }

/-- Concrete id supply for examples. -/
def uuid (n : Nat) : String := "uuid-" ++ toString n

/-! ## Sync relay (route module) and client connection manager

A channel is identified by a numeric tag standing for the object identity
the TS code compares with `client !== excludeClient`; `readyState` uses the
standard WebSocket constants (0 CONNECTING, 1 OPEN, 2 CLOSING, 3 CLOSED). -/
/-- `WebSocket.OPEN`. -/
def wsOPEN : Nat := 1

/-- One registered WebSocket channel, as the relay sees it. -/
structure Channel where
  id : Nat
  readyState : Nat
  deriving Repr, DecidableEq

/-- A parsed sync message (`syncMessageSchema` shape: `type`, `payload`,
`timestamp`).  The payload is kept as its serialized JSON text, which is all
the sync layer ever does with it. -/
structure SyncMessage where
  type : String
  payload : String
  timestamp : String
  deriving Repr, DecidableEq

/-- `JSON.stringify` applied to a sync message. -/
def stringifyMessage (m : SyncMessage) : String :=
  "\x7b\"type\":\"" ++ m.type ++ "\",\"payload\":" ++ m.payload ++
    ",\"timestamp\":\"" ++ m.timestamp ++ "\"\x7d"

/-- `broadcast(message, excludeClient?)` from the route module: stringify
once, then `send` to every registered client other than `excludeClient`
whose `readyState` is `WebSocket.OPEN`.  The result lists the sends
performed, as `(channel id, wire string)` pairs; `excludeClient = none`
models the call sites that pass no exclusion. -/
def broadcast (clients : List Channel) (message : SyncMessage)
    (excludeClient : Option Nat) : List (Nat × String) :=
  let messageStr := stringifyMessage message
  clients.filterMap (fun client =>
    if excludeClient ≠ some client.id ∧ client.readyState = wsOPEN then
      some (client.id, messageStr)
    else none)

/-- The relay's `ws.on("message")` handler: `JSON.parse` the data (a failure
is caught and logged, producing no sends), then `broadcast(message, ws)`
excluding the originating channel.  The parse outcome is the input:
`none` models a JSON parse failure. -/
def handleClientMessage (clients : List Channel) (ws : Channel)
    (parsed : Option SyncMessage) : List (Nat × String) :=
  match parsed with
  | none => []
  | some message => broadcast clients message (some ws.id)

/-- `sendMessage` from `websocket-context.tsx`: transmit right away when the
channel is open, otherwise append the event to `pendingQueue`.
`readyState = none` models `wsRef.current === null`.  Returns
`(wire strings sent now, new pendingQueue)`. -/
def sendMessage (readyState : Option Nat) (pendingQueue : List SyncMessage)
    (message : SyncMessage) : List String × List SyncMessage :=
  if readyState = some wsOPEN then
    ([stringifyMessage message], pendingQueue)
  else
    ([], pendingQueue ++ [message])

/-- The flush effect from `websocket-context.tsx`: when connected with a
non-empty queue and an open channel, `forEach` a `send` of every queued
event and then `setPendingQueue([])` unconditionally.  `k` is the number of
`send` calls made while the underlying channel was still alive — the
channel may die after `k` sends, and a `send` on a dead channel silently
discards its data — so `k = pendingQueue.length` is the fully successful
flush.  Returns `(wire strings actually delivered, new pendingQueue)`. -/
def flushQueue (isConnected : Bool) (readyState : Option Nat)
    (pendingQueue : List SyncMessage) (k : Nat) :
    List String × List SyncMessage :=
  if isConnected ∧ 0 < pendingQueue.length ∧ readyState = some wsOPEN then
    ((pendingQueue.take k).map stringifyMessage, [])
  else
    ([], pendingQueue)

/-- `ws.onmessage` from `websocket-context.tsx`: parse (a failure is caught
and logged, leaving state unchanged), discard `pong` keep-alive replies,
otherwise overwrite `lastMessage`.  Returns the new `lastMessage`. -/
def handleIncoming (parsed : Option SyncMessage)
    (lastMessage : Option SyncMessage) : Option SyncMessage :=
  match parsed with
  | none => lastMessage
  | some message =>
    if message.type = "pong" then lastMessage else some message

/-! ## Concrete fixtures used by the witnesses and counterexamples -/
/-- A concrete `stock_update` event. -/
def msgA : SyncMessage :=
  { type := "stock_update", payload := "1", timestamp := "tA" }

/-- A concrete `stock_create` event. -/
def msgB : SyncMessage :=
  { type := "stock_create", payload := "2", timestamp := "tB" }

/-- A concrete keep-alive `ping` message. -/
def msgPing : SyncMessage :=
  { type := "ping", payload := "null", timestamp := "t0" }

/-- An open channel. -/
def chanA : Channel := { id := 1, readyState := 1 }

/-- A channel in CLOSING state. -/
def chanB : Channel := { id := 2, readyState := 2 }

/-- Another open channel. -/
def chanC : Channel := { id := 3, readyState := 1 }

/-- A concrete partial update: only `currentStock` is present. -/
def updEx : UpdateStockItem :=
  { id := "it-1", reference := none, name := none, currentStock := some 7,
    pendingArrival := none, threshold := none, unit := none, location := none }

/-! ## Claim C6 — nonnegativity invariants -/
/-- The data-model invariant on one record: `currentStock ≥ 0` and
`pendingArrival ≥ 0`. -/
def ValidItem (x : StockItem) : Prop :=
  0 ≤ x.currentStock ∧ 0 ≤ x.pendingArrival

/-- Every record of the store satisfies the invariant. -/
def ValidStore (s : Store) : Prop := ∀ x ∈ s, ValidItem x

/-- Schema validity of an insert payload (`z.number().min(0)` on
`currentStock` and `pendingArrival`). -/
def ValidInsert (i : InsertStockItem) : Prop :=
  0 ≤ i.currentStock ∧ 0 ≤ i.pendingArrival

/-- Schema validity of a partial update payload: any `currentStock` or
`pendingArrival` it carries is nonnegative. -/
def ValidUpdate (u : UpdateStockItem) : Prop :=
  (∀ c, u.currentStock = some c → 0 ≤ c) ∧
  (∀ p, u.pendingArrival = some p → 0 ≤ p)

instance (x : StockItem) : Decidable (ValidItem x) := by
  unfold ValidItem; infer_instance

instance (s : Store) : Decidable (ValidStore s) := by
  unfold ValidStore; exact List.decidableBAll _ s

instance (i : InsertStockItem) : Decidable (ValidInsert i) := by
  unfold ValidInsert; infer_instance

/-! ## Claim C10 — case-insensitive reference uniqueness under import -/
/-- The store has pairwise distinct record identifiers (true of the real
`Map` by construction: records are keyed by their own id). -/
def idsNodup (s : Store) : Prop := (s.map (fun x => x.id)).Nodup

/-- No two records of the store have case-insensitively equal references. -/
def caselessRefsNodup (s : Store) : Prop :=
  (s.map (fun x => toLowerCase x.reference)).Nodup

instance (s : Store) : Decidable (idsNodup s) := by
  unfold idsNodup; exact List.nodupDecidable _

instance (s : Store) : Decidable (caselessRefsNodup s) := by
  unfold caselessRefsNodup; exact List.nodupDecidable _

/-- A concrete injective id supply for the C10 witness. -/
def freshA (n : Nat) : String := ⟨List.replicate n 'a'⟩

theorem orZero_eq (x : Int) : orZero x = x := by
  unfold orZero; split <;> simp_all

/-! ## Helper lemmas about the store model -/
theorem storeSet_of_forall_ne {s : Store} {id : String} (v : StockItem)
    (h : ∀ x ∈ s, x.id ≠ id) : storeSet s id v = s ++ [v] := by
  unfold storeSet
  rw [if_neg]
  simp only [List.any_eq_true, decide_eq_true_eq, not_exists, not_and]
  intro x hx
  exact h x hx

theorem find?_map_setId {id id2 : String} {v : StockItem}
    (hv : v.id = id) (hne : id2 ≠ id) (s : Store) :
    ((s.map (fun x => if x.id = id then v else x)).find?
        (fun x => x.id = id2)) =
      s.find? (fun x => x.id = id2) := by
  induction s with
  | nil => rfl
  | cons x xs ih =>
    by_cases hx : x.id = id
    · have hv2 : ¬ (v.id = id2) := by rw [hv]; exact Ne.symm hne
      have hx2 : ¬ (x.id = id2) := by rw [hx]; exact Ne.symm hne
      simp only [List.map_cons, if_pos hx]
      simp [hv2, hx2, ih]
    · simp only [List.map_cons, if_neg hx]
      by_cases hx2 : x.id = id2
      · simp [hx2]
      · simp [hx2, ih]

theorem find?_map_setId_self {id : String} {v : StockItem} (hv : v.id = id) :
    ∀ s : Store, (∃ x ∈ s, x.id = id) →
      ((s.map (fun x => if x.id = id then v else x)).find?
          (fun x => x.id = id)) = some v := by
  intro s
  induction s with
  | nil => rintro ⟨x, hx, _⟩; cases hx
  | cons x xs ih =>
    rintro ⟨x0, hx0mem, hx0id⟩
    by_cases hx : x.id = id
    · simp only [List.map_cons, if_pos hx]
      simp [hv]
    · simp only [List.map_cons, if_neg hx]
      rcases List.mem_cons.mp hx0mem with rfl | hmem
      · exact absurd hx0id hx
      · have hdec : decide (x.id = id) = false := by simp [hx]
        simp only [List.find?_cons, hdec]
        exact ih ⟨x0, hmem, hx0id⟩

theorem storeGet_storeSet_ne {id id2 : String} {v : StockItem}
    (hv : v.id = id) (hne : id2 ≠ id) (s : Store) :
    storeGet (storeSet s id v) id2 = storeGet s id2 := by
  unfold storeSet storeGet
  split
  · exact find?_map_setId hv hne s
  · have hv2 : ¬ (v.id = id2) := by rw [hv]; exact Ne.symm hne
    simp [List.find?_append, hv2]

theorem storeGet_storeSet_self {id : String} {v : StockItem}
    (hv : v.id = id) (s : Store) :
    storeGet (storeSet s id v) id = some v := by
  unfold storeSet storeGet
  split
  · rename_i hany
    simp only [List.any_eq_true, decide_eq_true_eq] at hany
    exact find?_map_setId_self hv s hany
  · rename_i hany
    simp only [List.any_eq_true, decide_eq_true_eq, not_exists, not_and] at hany
    have hnone : s.find? (fun x => decide (x.id = id)) = none :=
      List.find?_eq_none.mpr (by simpa using hany)
    simp [List.find?_append, hnone, hv]

/-! ## Claim C7 — status derivation -/
/-- C7 (counterexample): the claim's example `(currentStock, pendingArrival,
threshold) = (8, 0, 10)` does not yield `adequate`: the code (and the spec's
own general rule, since `available = 8 < threshold = 10`) yields `low`. -/
theorem getStockStatus_8_0_10_cex :
    getStockStatus (mkItem 8 0 10) = .low ∧ StockStatus.low ≠ .adequate := by
  constructor
  · norm_num [getStockStatus, mkItem, orZero]
  · decide

/-- C7 (amended): for every record, with `available = currentStock +
pendingArrival`, the derived status is critical if `available ≤ 0`, else low
if `available < threshold`, else adequate if `available ≤ threshold * 1.5`,
else high; in particular `(0,0,10)` is critical, `(3,2,10)` is low,
`(8,0,10)` is low, and `(20,0,10)` is high. -/
theorem getStockStatus_spec :
    (∀ item : StockItem,
        getStockStatus item =
          specStatus (item.currentStock + item.pendingArrival) item.threshold) ∧
    getStockStatus (mkItem 0 0 10) = .critical ∧
    getStockStatus (mkItem 3 2 10) = .low ∧
    getStockStatus (mkItem 8 0 10) = .low ∧
    getStockStatus (mkItem 20 0 10) = .high := by
  refine ⟨fun item => ?_, ?_, ?_, ?_, ?_⟩
  · simp only [getStockStatus, specStatus, orZero_eq]
  all_goals norm_num [getStockStatus, mkItem, orZero]

/-! ## Claim C2 — flush is not resumable -/
/-- C2 (counterexample): with queue `[msgA, msgB]` and the channel dying
after one successful send, `msgB` was never delivered, yet the queue is
empty afterwards — the unsent event is lost, contradicting the claim that
every event not confirmed sent remains in the queue. -/
theorem flushQueue_midclose_cex :
    flushQueue true (some wsOPEN) [msgA, msgB] 1 =
      ([stringifyMessage msgA], []) ∧
    stringifyMessage msgB ∉ (flushQueue true (some wsOPEN) [msgA, msgB] 1).1 ∧
    msgB ∉ (flushQueue true (some wsOPEN) [msgA, msgB] 1).2 := by
  refine ⟨?_, ?_, ?_⟩ <;> decide

/-- C2 (amended): if the channel closes while the offline queue is being
flushed after `k` events have been sent, the first `k` events are delivered
in FIFO order, the remaining events are silently dropped, and the queue is
empty afterwards: the flush effect clears the whole queue unconditionally —
flush is atomic queue-clearing, not resumable. -/
theorem flushQueue_clears_unconditionally (q : List SyncMessage) (k : Nat) :
    flushQueue true (some wsOPEN) q k = ((q.take k).map stringifyMessage, []) := by
  unfold flushQueue
  split
  · rfl
  · rename_i h
    have hq : q = [] := by
      by_contra hne
      exact h ⟨rfl, by simpa [List.length_pos] using hne, rfl⟩
    subst hq
    simp

/-! ## Claim C4 — offline queueing and FIFO flush -/
/-- C4: while the channel is not open, `sendMessage` enqueues each event
(appending, never dropping); a sequence of offline sends leaves the queue
holding exactly the prior queue followed by the events in production order;
and a fully successful flush delivers the queue in strict FIFO order and
leaves it empty. -/
theorem offline_queue_fifo (readyState : Option Nat)
    (h : readyState ≠ some wsOPEN) (q0 events : List SyncMessage) :
    (∀ queue message,
        sendMessage readyState queue message = ([], queue ++ [message])) ∧
    events.foldl (fun acc e => (sendMessage readyState acc e).2) q0 =
      q0 ++ events ∧
    (∀ q : List SyncMessage,
        flushQueue true (some wsOPEN) q q.length =
          (q.map stringifyMessage, [])) := by
  have hsend : ∀ queue message,
      sendMessage readyState queue message = ([], queue ++ [message]) := by
    intro queue message
    simp [sendMessage, h]
  refine ⟨hsend, ?_, ?_⟩
  · induction events generalizing q0 with
    | nil => simp
    | cons e es ih =>
      rw [List.foldl_cons]
      have hstep : (sendMessage readyState q0 e).2 = q0 ++ [e] := by
        rw [hsend]
      rw [hstep, ih]
      simp
  · intro q
    unfold flushQueue
    split
    · simp
    · rename_i hg
      have hq : q = [] := by
        by_contra hne
        exact hg ⟨rfl, by simpa [List.length_pos] using hne, rfl⟩
      subst hq
      simp

/-- C4 (witness): concrete run — two events produced while disconnected are
both queued in order, and the subsequent successful flush sends both in FIFO
order and empties the queue. -/
theorem offline_queue_fifo_witness :
    (none : Option Nat) ≠ some wsOPEN ∧
    [msgA, msgB].foldl (fun acc e => (sendMessage none acc e).2) [] =
      [msgA, msgB] ∧
    flushQueue true (some wsOPEN) [msgA, msgB] 2 =
      ([stringifyMessage msgA, stringifyMessage msgB], []) := by
  refine ⟨by decide, ?_, ?_⟩
  · exact ((offline_queue_fifo none (by decide) [] [msgA, msgB]).2.1).trans
      (by decide)
  · exact (offline_queue_fifo none (by decide) [] []).2.2 [msgA, msgB]

/-! ## Claim C1 — arrivals batch -/
theorem applyArrivals_len_le (now : String) :
    ∀ (arrivals : List Arrival) (s : Store),
      (applyArrivals now s arrivals).2.length ≤ arrivals.length := by
  intro arrivals
  induction arrivals with
  | nil => intro s; simp [applyArrivals]
  | cons a rest ih =>
    intro s
    cases hg : storeGet s a.itemId with
    | none =>
      simp only [applyArrivals, hg]
      exact Nat.le_succ_of_le (ih s)
    | some e =>
      simp only [applyArrivals, hg, List.length_cons]
      exact Nat.succ_le_succ (ih _)

/-- C1: `applyArrivals` processes the batch pair by pair: a pair whose
`itemId` names no record is skipped silently (the call behaves as if the
pair were absent), a pair whose `itemId` names record `e` updates it to
`currentStock + quantity` and `max 0 (pendingArrival - quantity)` with a
fresh timestamp and contributes exactly that record to the result, and the
result never has more entries than the input batch (skipped ids are
absent). -/
theorem applyArrivals_spec (now : String) (s : Store) (a : Arrival)
    (rest arrivals : List Arrival) :
    applyArrivals now s [] = (s, []) ∧
    (storeGet s a.itemId = none →
      applyArrivals now s (a :: rest) = applyArrivals now s rest) ∧
    (∀ e, storeGet s a.itemId = some e →
      applyArrivals now s (a :: rest) =
        ((applyArrivals now (storeSet s a.itemId
            { e with currentStock := e.currentStock + a.quantity,
                     pendingArrival := max 0 (e.pendingArrival - a.quantity),
                     lastUpdated := now }) rest).1,
         { e with currentStock := e.currentStock + a.quantity,
                  pendingArrival := max 0 (e.pendingArrival - a.quantity),
                  lastUpdated := now } ::
           (applyArrivals now (storeSet s a.itemId
             { e with currentStock := e.currentStock + a.quantity,
                      pendingArrival := max 0 (e.pendingArrival - a.quantity),
                      lastUpdated := now }) rest).2)) ∧
    (applyArrivals now s arrivals).2.length ≤ arrivals.length := by
  refine ⟨rfl, fun hnone => ?_, fun e he => ?_,
    applyArrivals_len_le now arrivals s⟩
  · simp [applyArrivals, hnone]
  · simp [applyArrivals, he, orZero_eq]

/-- C1 (witness): on the store `[mkItem 2 5 10]`, a pair for the unknown id
`"missing"` is skipped, and a pair `("it-1", 3)` yields stock `5`, pending
`2` and result list of length one. -/
theorem applyArrivals_spec_witness :
    storeGet [mkItem 2 5 10] "missing" = none ∧
    applyArrivals "t1" [mkItem 2 5 10] [⟨"missing", 4⟩] =
      applyArrivals "t1" [mkItem 2 5 10] [] ∧
    storeGet [mkItem 2 5 10] "it-1" = some (mkItem 2 5 10) ∧
    applyArrivals "t1" [mkItem 2 5 10] [⟨"it-1", 3⟩] =
      ([{ mkItem 5 2 10 with lastUpdated := "t1" }],
       [{ mkItem 5 2 10 with lastUpdated := "t1" }]) := by
  refine ⟨by decide,
    (applyArrivals_spec "t1" [mkItem 2 5 10] ⟨"missing", 4⟩ [] []).2.1
      (by decide),
    by decide, ?_⟩
  have h := (applyArrivals_spec "t1" [mkItem 2 5 10] ⟨"it-1", 3⟩ [] []).2.2.1
    (mkItem 2 5 10) (by decide)
  rw [h]
  decide

/-! ## Claims C3 and C8 — relay fan-out -/
theorem broadcast_eq (clients : List Channel) (message : SyncMessage)
    (excludeClient : Option Nat) :
    broadcast clients message excludeClient =
      (clients.filter (fun c =>
          excludeClient ≠ some c.id ∧ c.readyState = wsOPEN)).map
        (fun c => (c.id, stringifyMessage message)) := by
  unfold broadcast
  induction clients with
  | nil => rfl
  | cons c cs ih =>
    by_cases hc : excludeClient ≠ some c.id ∧ c.readyState = wsOPEN
    · simp [List.filterMap_cons, List.filter_cons, hc, ih]
    · simp [List.filterMap_cons, List.filter_cons, hc, ih]

/-- C3: `broadcast` serializes the event once and sends that one
serialization to exactly the registered channels that are in the open state
and are not the excluded channel (channels not open are silently skipped);
and the originating channel of a relayed client message never receives its
own event back. -/
theorem broadcast_fanout (clients : List Channel) (message : SyncMessage)
    (excludeClient : Option Nat) (ws : Channel) (parsed : Option SyncMessage) :
    broadcast clients message excludeClient =
      (clients.filter (fun c =>
          excludeClient ≠ some c.id ∧ c.readyState = wsOPEN)).map
        (fun c => (c.id, stringifyMessage message)) ∧
    (∀ p ∈ broadcast clients message excludeClient,
        p.2 = stringifyMessage message) ∧
    (∀ str, (ws.id, str) ∉ handleClientMessage clients ws parsed) := by
  refine ⟨broadcast_eq clients message excludeClient, ?_, ?_⟩
  · intro p hp
    rw [broadcast_eq] at hp
    obtain ⟨c, _, rfl⟩ := List.mem_map.mp hp
    rfl
  · intro str hmem
    cases parsed with
    | none => simp [handleClientMessage] at hmem
    | some m =>
      simp only [handleClientMessage] at hmem
      rw [broadcast_eq] at hmem
      obtain ⟨c, hc, heq⟩ := List.mem_map.mp hmem
      obtain ⟨_, hcprop⟩ := List.mem_filter.mp hc
      have hne : some ws.id ≠ some c.id := (of_decide_eq_true hcprop).1
      rw [Prod.mk.injEq] at heq
      exact hne (by rw [heq.1])

/-- C3 (witness): with channels 1 (open), 2 (closing), 3 (open) and the
event originating from channel 1, the relay sends exactly one copy to
channel 3, and channel 1 never receives its own event. -/
theorem broadcast_fanout_witness :
    broadcast [chanA, chanB, chanC] msgA (some 1) =
      [(3, stringifyMessage msgA)] ∧
    (stringifyMessage msgA ∈
      (broadcast [chanA, chanB, chanC] msgA (some 1)).map Prod.snd) ∧
    ((1, stringifyMessage msgA) ∉
      handleClientMessage [chanA, chanB, chanC] chanA (some msgA)) := by
  refine ⟨?_, ?_, ?_⟩
  · rw [(broadcast_fanout [chanA, chanB, chanC] msgA (some 1) chanA
      (some msgA)).1]
    decide
  · rw [(broadcast_fanout [chanA, chanB, chanC] msgA (some 1) chanA
      (some msgA)).1]
    decide
  · exact (broadcast_fanout [chanA, chanB, chanC] msgA (some 1) chanA
      (some msgA)).2.2 (stringifyMessage msgA)

/-- C8: the relay performs no validation of message content beyond JSON
parsing: every parsed message, whatever its `type` (the `ping` keep-alive
included), is rebroadcast verbatim to all other open channels, an
unparseable message produces no sends, and the receiving client surfaces
every message whose type is not `"pong"` as its last received event while
discarding `"pong"`. -/
theorem relay_no_validation (clients : List Channel) (ws : Channel)
    (m : SyncMessage) (last : Option SyncMessage) :
    handleClientMessage clients ws (some m) =
      (clients.filter (fun c => ws.id ≠ c.id ∧ c.readyState = wsOPEN)).map
        (fun c => (c.id, stringifyMessage m)) ∧
    handleClientMessage clients ws none = [] ∧
    (m.type ≠ "pong" → handleIncoming (some m) last = some m) ∧
    (m.type = "pong" → handleIncoming (some m) last = last) := by
  refine ⟨?_, rfl, fun h => ?_, fun h => ?_⟩
  · show broadcast clients m (some ws.id) = _
    rw [broadcast_eq]
    congr 1
    apply List.filter_congr
    intro c _
    simp only [ne_eq, Option.some.injEq]
  · simp [handleIncoming, h]
  · simp [handleIncoming, h]

/-- C8 (witness): a `ping` received from channel 1 is rebroadcast to the
open channel 3 (the relay does not filter it), and a receiving client
surfaces it as its last received event since its type is not `"pong"`. -/
theorem relay_no_validation_witness :
    handleClientMessage [chanA, chanB, chanC] chanA (some msgPing) =
      [(3, stringifyMessage msgPing)] ∧
    handleIncoming (some msgPing) none = some msgPing := by
  constructor
  · rw [(relay_no_validation [chanA, chanB, chanC] chanA msgPing none).1]
    decide
  · exact (relay_no_validation [] chanA msgPing none).2.2.1 (by decide)

/-! ## Claim C9 — updateStock frame condition -/
/-- C9: for an existing record, `updateStock` succeeds and produces a record
that keeps the identifier and the previous value of every field absent from
the update payload, stamps `lastUpdated`, and leaves every other record in
the store untouched. -/
theorem updateStock_frame (now : String) (s : Store) (upd : UpdateStockItem)
    (existing : StockItem) (hget : storeGet s upd.id = some existing) :
    ∃ s2 u, updateStock now s upd = some (s2, u) ∧
      u.id = existing.id ∧
      (upd.reference = none → u.reference = existing.reference) ∧
      (upd.name = none → u.name = existing.name) ∧
      (upd.currentStock = none → u.currentStock = existing.currentStock) ∧
      (upd.pendingArrival = none → u.pendingArrival = existing.pendingArrival) ∧
      (upd.threshold = none → u.threshold = existing.threshold) ∧
      (upd.unit = none → u.unit = existing.unit) ∧
      (upd.location = none → u.location = existing.location) ∧
      u.lastUpdated = now ∧
      (∀ id2, id2 ≠ upd.id → storeGet s2 id2 = storeGet s id2) := by
  have hid : existing.id = upd.id := by
    have h := List.find?_some hget
    exact of_decide_eq_true h
  simp only [updateStock, hget]
  refine ⟨_, _, rfl, hid.symm, fun h => ?_, fun h => ?_, fun h => ?_,
    fun h => ?_, fun h => ?_, fun h => ?_, fun h => ?_, rfl,
    fun id2 hne => ?_⟩
  · simp [h]
  · simp [h]
  · simp [h]
  · simp [h]
  · simp [h]
  · simp [h]
  · simp [h]
  · apply storeGet_storeSet_ne
    · rfl
    · exact hne

/-- C9 (witness): applying `updEx` to the store `[mkItem 2 5 10]`
(an existing record) instantiates the frame theorem. -/
theorem updateStock_frame_witness :
    ∃ s2 u, updateStock "t2" [mkItem 2 5 10] updEx = some (s2, u) ∧
      u.id = (mkItem 2 5 10).id ∧
      (updEx.reference = none → u.reference = (mkItem 2 5 10).reference) ∧
      (updEx.name = none → u.name = (mkItem 2 5 10).name) ∧
      (updEx.currentStock = none → u.currentStock = (mkItem 2 5 10).currentStock) ∧
      (updEx.pendingArrival = none →
        u.pendingArrival = (mkItem 2 5 10).pendingArrival) ∧
      (updEx.threshold = none → u.threshold = (mkItem 2 5 10).threshold) ∧
      (updEx.unit = none → u.unit = (mkItem 2 5 10).unit) ∧
      (updEx.location = none → u.location = (mkItem 2 5 10).location) ∧
      u.lastUpdated = "t2" ∧
      (∀ id2, id2 ≠ updEx.id →
        storeGet s2 id2 = storeGet [mkItem 2 5 10] id2) :=
  updateStock_frame "t2" [mkItem 2 5 10] updEx (mkItem 2 5 10) (by decide)

theorem validStore_storeSet {s : Store} (hs : ValidStore s) {v : StockItem}
    (hv : ValidItem v) (id : String) : ValidStore (storeSet s id v) := by
  unfold storeSet
  split
  · intro x hx
    obtain ⟨y, hy, rfl⟩ := List.mem_map.mp hx
    by_cases h : y.id = id
    · simpa [h] using hv
    · simpa [h] using hs y hy
  · intro x hx
    rcases List.mem_append.mp hx with h | h
    · exact hs x h
    · rw [List.mem_singleton.mp h]
      exact hv

theorem validStore_get {s : Store} (hs : ValidStore s) {id : String}
    {e : StockItem} (h : storeGet s id = some e) : ValidItem e :=
  hs e (List.mem_of_find?_eq_some h)

theorem applyArrivals_valid (now : String) :
    ∀ (arrivals : List Arrival) (s : Store), ValidStore s →
      (∀ a ∈ arrivals, 1 ≤ a.quantity) →
      ValidStore (applyArrivals now s arrivals).1 := by
  intro arrivals
  induction arrivals with
  | nil => intro s hs _; simpa [applyArrivals] using hs
  | cons a rest ih =>
    intro s hs hq
    cases hg : storeGet s a.itemId with
    | none =>
      simp only [applyArrivals, hg]
      exact ih s hs (fun b hb => hq b (List.mem_cons_of_mem a hb))
    | some e =>
      have he := validStore_get hs hg
      have hq1 : 1 ≤ a.quantity := hq a (List.mem_cons_self a rest)
      have hu : ValidItem
          { e with currentStock := e.currentStock + a.quantity,
                   pendingArrival := max 0 (orZero e.pendingArrival - a.quantity),
                   lastUpdated := now } := by
        constructor
        · show 0 ≤ e.currentStock + a.quantity
          have := he.1
          omega
        · show 0 ≤ max 0 (orZero e.pendingArrival - a.quantity)
          exact le_max_left 0 _
      simp only [applyArrivals, hg]
      exact ih _ (validStore_storeSet hs hu _)
        (fun b hb => hq b (List.mem_cons_of_mem a hb))

theorem importStock_valid (now : String) (freshId : Nat → String) :
    ∀ (items : List InsertStockItem) (s : Store) (n : Nat), ValidStore s →
      (∀ it ∈ items, ValidInsert it) →
      ValidStore (importStock now freshId s n items).1 := by
  intro items
  induction items with
  | nil => intro s n hs _; simpa [importStock] using hs
  | cons item rest ih =>
    intro s n hs hv
    have hvi := hv item (List.mem_cons_self item rest)
    cases hl : lookupByRef s item.reference with
    | some e =>
      have hu : ValidItem
          { e with name := item.name, currentStock := item.currentStock,
                   pendingArrival := orZero item.pendingArrival,
                   threshold := orZero item.threshold, unit := item.unit,
                   location := item.location, lastUpdated := now } := by
        constructor
        · exact hvi.1
        · show 0 ≤ orZero item.pendingArrival
          rw [orZero_eq]
          exact hvi.2
      simp only [importStock, hl]
      exact ih _ _ (validStore_storeSet hs hu _)
        (fun b hb => hv b (List.mem_cons_of_mem item hb))
    | none =>
      have hu : ValidItem
          { id := freshId n, reference := item.reference, name := item.name,
            currentStock := item.currentStock,
            pendingArrival := orZero item.pendingArrival,
            threshold := orZero item.threshold, unit := item.unit,
            location := item.location, lastUpdated := now } := by
        constructor
        · exact hvi.1
        · show 0 ≤ orZero item.pendingArrival
          rw [orZero_eq]
          exact hvi.2
      simp only [importStock, hl]
      exact ih _ _ (validStore_storeSet hs hu _)
        (fun b hb => hv b (List.mem_cons_of_mem item hb))

/-- C6: on schema-valid input, every store operation preserves the record
invariant `currentStock ≥ 0 ∧ pendingArrival ≥ 0`: creation and import of
valid rows, partial updates carrying only nonnegative values, and arrival
batches with quantities ≥ 1 (arrivals clamp `pendingArrival` at 0 via
`max 0 (pendingArrival - receivedQty)`) all map a valid store to a valid
store. -/
theorem stock_invariants (now : String) (s : Store) (hs : ValidStore s) :
    (∀ id item, ValidInsert item → ValidStore (createStock now id s item).1) ∧
    (∀ upd s2 u, ValidUpdate upd → updateStock now s upd = some (s2, u) →
        ValidStore s2) ∧
    (∀ arrivals, (∀ a ∈ arrivals, 1 ≤ a.quantity) →
        ValidStore (applyArrivals now s arrivals).1) ∧
    (∀ freshId n items, (∀ it ∈ items, ValidInsert it) →
        ValidStore (importStock now freshId s n items).1) := by
  refine ⟨fun id item hins => ?_, fun upd s2 u hupd heq => ?_,
    fun arrivals hq => applyArrivals_valid now arrivals s hs hq,
    fun freshId n items hv => importStock_valid now freshId items s n hs hv⟩
  · apply validStore_storeSet hs
    constructor
    · exact hins.1
    · show 0 ≤ orZero item.pendingArrival
      rw [orZero_eq]
      exact hins.2
  · cases hget : storeGet s upd.id with
    | none => simp [updateStock, hget] at heq
    | some existing =>
      have hex := validStore_get hs hget
      simp only [updateStock, hget, Option.some.injEq, Prod.mk.injEq] at heq
      obtain ⟨hs2, hu⟩ := heq
      rw [← hs2]
      apply validStore_storeSet hs
      constructor
      · show 0 ≤ upd.currentStock.getD existing.currentStock
        cases hc : upd.currentStock with
        | none => simpa using hex.1
        | some c => simpa using hupd.1 c hc
      · show 0 ≤ upd.pendingArrival.getD existing.pendingArrival
        cases hp : upd.pendingArrival with
        | none => simpa using hex.2
        | some p => simpa using hupd.2 p hp

/-- C6 (witness): concrete instantiations — the singleton valid store
`[mkItem 2 5 10]` stays valid under a create, an update carrying
`currentStock := 7`, an arrival of quantity 3 and an import of one row. -/
theorem stock_invariants_witness :
    ValidStore (createStock "t1" "id-9" [mkItem 2 5 10]
      (mkInsert "A-1" "Autre" 1 2 3)).1 ∧
    (∀ s2 u, updateStock "t2" [mkItem 2 5 10] updEx = some (s2, u) →
        ValidStore s2) ∧
    ValidStore (applyArrivals "t1" [mkItem 2 5 10] [⟨"it-1", 3⟩]).1 ∧
    ValidStore (importStock "t1" uuid [mkItem 2 5 10] 0
      [mkInsert "gl-100" "Gants" 7 1 4]).1 := by
  have hs : ValidStore [mkItem 2 5 10] := by decide
  refine ⟨?_, ?_, ?_, ?_⟩
  · exact (stock_invariants "t1" [mkItem 2 5 10] hs).1 "id-9"
      (mkInsert "A-1" "Autre" 1 2 3) (by decide)
  · intro s2 u heq
    exact (stock_invariants "t2" [mkItem 2 5 10] hs).2.1 updEx s2 u
      ⟨fun c hc => by simp [updEx] at hc; omega, fun p hp => by
        simp [updEx] at hp⟩ heq
  · exact (stock_invariants "t1" [mkItem 2 5 10] hs).2.2.1 [⟨"it-1", 3⟩]
      (by decide)
  · exact (stock_invariants "t1" [mkItem 2 5 10] hs).2.2.2 uuid 0
      [mkInsert "gl-100" "Gants" 7 1 4] (by decide)

/-! ## Claim C5 — import upsert -/
theorem importStock_count (now : String) (freshId : Nat → String) :
    ∀ (items : List InsertStockItem) (s : Store) (n : Nat),
      (importStock now freshId s n items).2.2 = items.length := by
  intro items
  induction items with
  | nil => intro s n; rfl
  | cons item rest ih =>
    intro s n
    cases hl : lookupByRef s item.reference with
    | some e => simp [importStock, hl, ih]
    | none => simp [importStock, hl, ih]

/-- C5: `importStock` upserts row by row, matching on case-insensitive
reference: a row whose reference matches existing record `e` overwrites
`e`'s name, currentStock, pendingArrival, threshold, unit and location in
place, keeping `e`'s identifier and reference; a row with no match appends
exactly one new record under the freshly generated identifier; and the
returned count is the total number of rows processed, creates and updates
combined. -/
theorem importStock_upsert (now : String) (freshId : Nat → String)
    (s : Store) (n : Nat) (item : InsertStockItem)
    (rest items : List InsertStockItem) :
    (∀ e, lookupByRef s item.reference = some e →
        toLowerCase e.reference = toLowerCase item.reference ∧
        importStock now freshId s n (item :: rest) =
          ((importStock now freshId (storeSet s e.id
              { id := e.id, reference := e.reference, name := item.name,
                currentStock := item.currentStock,
                pendingArrival := item.pendingArrival,
                threshold := item.threshold, unit := item.unit,
                location := item.location, lastUpdated := now }) n rest).1,
           (importStock now freshId (storeSet s e.id
              { id := e.id, reference := e.reference, name := item.name,
                currentStock := item.currentStock,
                pendingArrival := item.pendingArrival,
                threshold := item.threshold, unit := item.unit,
                location := item.location, lastUpdated := now }) n rest).2.1,
           (importStock now freshId (storeSet s e.id
              { id := e.id, reference := e.reference, name := item.name,
                currentStock := item.currentStock,
                pendingArrival := item.pendingArrival,
                threshold := item.threshold, unit := item.unit,
                location := item.location, lastUpdated := now }) n rest).2.2
             + 1)) ∧
    (lookupByRef s item.reference = none →
      (∀ x ∈ s, x.id ≠ freshId n) →
        importStock now freshId s n (item :: rest) =
          ((importStock now freshId (s ++
              [{ id := freshId n, reference := item.reference,
                 name := item.name, currentStock := item.currentStock,
                 pendingArrival := item.pendingArrival,
                 threshold := item.threshold, unit := item.unit,
                 location := item.location, lastUpdated := now }])
              (n + 1) rest).1,
           (importStock now freshId (s ++
              [{ id := freshId n, reference := item.reference,
                 name := item.name, currentStock := item.currentStock,
                 pendingArrival := item.pendingArrival,
                 threshold := item.threshold, unit := item.unit,
                 location := item.location, lastUpdated := now }])
              (n + 1) rest).2.1,
           (importStock now freshId (s ++
              [{ id := freshId n, reference := item.reference,
                 name := item.name, currentStock := item.currentStock,
                 pendingArrival := item.pendingArrival,
                 threshold := item.threshold, unit := item.unit,
                 location := item.location, lastUpdated := now }])
              (n + 1) rest).2.2 + 1)) ∧
    (importStock now freshId s n items).2.2 = items.length := by
  refine ⟨fun e he => ⟨?_, ?_⟩, fun hnone hfresh => ?_,
    importStock_count now freshId items s n⟩
  · have h := List.find?_some he
    exact of_decide_eq_true h
  · simp [importStock, he, orZero_eq]
  · rw [show (importStock now freshId s n (item :: rest)) =
        (let r := importStock now freshId (storeSet s (freshId n)
            { id := freshId n, reference := item.reference, name := item.name,
              currentStock := item.currentStock,
              pendingArrival := orZero item.pendingArrival,
              threshold := orZero item.threshold, unit := item.unit,
              location := item.location, lastUpdated := now }) (n + 1) rest
         (r.1, r.2.1, r.2.2 + 1)) from by simp [importStock, hnone]]
    rw [storeSet_of_forall_ne _ hfresh]
    simp [orZero_eq]

/-- C5 (witness): on the store `[mkItem 2 5 10]` (reference `"GL-100"`),
the row with reference `"gl-100"` updates that record in place keeping id
`"it-1"`, the row with reference `"NEW-1"` creates a fresh record, and the
count equals the number of rows. -/
theorem importStock_upsert_witness :
    lookupByRef [mkItem 2 5 10] "gl-100" = some (mkItem 2 5 10) ∧
    (importStock "t1" uuid [mkItem 2 5 10] 0
        [mkInsert "gl-100" "Gants" 7 1 4]).1 =
      [{ mkItem 7 1 4 with name := "Gants", lastUpdated := "t1" }] ∧
    lookupByRef [mkItem 2 5 10] "NEW-1" = none ∧
    (importStock "t1" uuid [mkItem 2 5 10] 0
        [mkInsert "NEW-1" "Autre" 1 0 2]).1 =
      [mkItem 2 5 10,
       { id := "uuid-0", reference := "NEW-1", name := "Autre",
         currentStock := 1, pendingArrival := 0, threshold := 2,
         unit := "unités", location := none, lastUpdated := "t1" }] ∧
    (importStock "t1" uuid [mkItem 2 5 10] 0
        [mkInsert "gl-100" "Gants" 7 1 4, mkInsert "NEW-1" "Autre" 1 0 2]).2.2
      = 2 := by
  refine ⟨by decide, ?_, by decide, ?_, ?_⟩
  · have h := ((importStock_upsert "t1" uuid [mkItem 2 5 10] 0
      (mkInsert "gl-100" "Gants" 7 1 4) [] []).1 (mkItem 2 5 10)
      (by decide)).2
    rw [h]
    decide
  · have h := (importStock_upsert "t1" uuid [mkItem 2 5 10] 0
      (mkInsert "NEW-1" "Autre" 1 0 2) [] []).2.1 (by decide) (by decide)
    rw [h]
    decide
  · exact (importStock_upsert "t1" uuid [mkItem 2 5 10] 0
      (mkInsert "gl-100" "Gants" 7 1 4) []
      [mkInsert "gl-100" "Gants" 7 1 4, mkInsert "NEW-1" "Autre" 1 0 2]).2.2

theorem map_storeSet_existing {s : Store} {e v : StockItem}
    (hnd : idsNodup s) (hmem : e ∈ s) (hid : v.id = e.id)
    {β : Type} (f : StockItem → β) (hf : f v = f e) :
    (storeSet s e.id v).map f = s.map f := by
  unfold storeSet
  split
  · rw [List.map_map]
    apply List.map_congr_left
    intro x hx
    by_cases h : x.id = e.id
    · have hxe : x = e :=
        List.inj_on_of_nodup_map (by simpa [idsNodup] using hnd) hx hmem h
      subst hxe
      simp [hf]
    · simp [Function.comp_apply, h]
  · rename_i hany
    exfalso
    simp only [List.any_eq_true, decide_eq_true_eq, not_exists, not_and]
      at hany
    exact hany e hmem rfl

theorem mem_storeSet_self {s : Store} {e : StockItem} (hmem : e ∈ s)
    (v : StockItem) : v ∈ storeSet s e.id v := by
  unfold storeSet
  split
  · exact List.mem_map.mpr ⟨e, hmem, by simp⟩
  · exact List.mem_append.mpr (Or.inr (List.mem_singleton.mpr rfl))

theorem importStock_aux (now : String) (freshId : Nat → String)
    (hinj : Function.Injective freshId) :
    ∀ (items : List InsertStockItem) (s : Store) (n : Nat),
      idsNodup s →
      (∀ k, n ≤ k → ∀ x ∈ s, x.id ≠ freshId k) →
      caselessRefsNodup s →
      idsNodup (importStock now freshId s n items).1 ∧
      caselessRefsNodup (importStock now freshId s n items).1 ∧
      (∀ x ∈ s, ∃ y ∈ (importStock now freshId s n items).1,
          toLowerCase y.reference = toLowerCase x.reference) ∧
      (∀ it ∈ items, ∃ y ∈ (importStock now freshId s n items).1,
          toLowerCase y.reference = toLowerCase it.reference) := by
  intro items
  induction items with
  | nil =>
    intro s n hids hfresh hrefs
    simp only [importStock]
    exact ⟨hids, hrefs, fun x hx => ⟨x, hx, rfl⟩, by simp⟩
  | cons item rest ih =>
    intro s n hids hfresh hrefs
    cases hl : lookupByRef s item.reference with
    | some e =>
      have hl2 : s.find?
          (fun x => toLowerCase x.reference = toLowerCase item.reference) =
            some e := hl
      have hemem : e ∈ s := List.mem_of_find?_eq_some hl2
      have heref : toLowerCase e.reference = toLowerCase item.reference := by
        have h3 := List.find?_some hl2
        simpa using h3
      simp only [importStock, hl]
      set u : StockItem :=
        { e with name := item.name, currentStock := item.currentStock,
                 pendingArrival := orZero item.pendingArrival,
                 threshold := orZero item.threshold, unit := item.unit,
                 location := item.location, lastUpdated := now } with hu
      have hid_u : u.id = e.id := by rw [hu]
      have href_u : u.reference = e.reference := by rw [hu]
      have hmap_ids := map_storeSet_existing hids hemem hid_u
        (fun x => x.id) hid_u
      have hmap_refs := map_storeSet_existing hids hemem hid_u
        (fun x => toLowerCase x.reference)
        (by show toLowerCase u.reference = toLowerCase e.reference
            rw [href_u])
      have hids2 : idsNodup (storeSet s e.id u) := by
        unfold idsNodup
        rw [hmap_ids]
        exact hids
      have hrefs2 : caselessRefsNodup (storeSet s e.id u) := by
        unfold caselessRefsNodup
        rw [hmap_refs]
        exact hrefs
      have hfresh2 : ∀ k, n ≤ k → ∀ x ∈ storeSet s e.id u,
          x.id ≠ freshId k := by
        intro k hk x hx
        have hxid : x.id ∈ (storeSet s e.id u).map (fun z => z.id) :=
          List.mem_map_of_mem _ hx
        rw [hmap_ids] at hxid
        obtain ⟨y, hy, hyid⟩ := List.mem_map.mp hxid
        rw [← hyid]
        exact hfresh k hk y hy
      obtain ⟨h1, h2, h3, h4⟩ := ih (storeSet s e.id u) n hids2 hfresh2 hrefs2
      refine ⟨h1, h2, ?_, ?_⟩
      · intro x hx
        have hxref : toLowerCase x.reference ∈
            (storeSet s e.id u).map (fun z => toLowerCase z.reference) := by
          rw [hmap_refs]
          exact List.mem_map_of_mem _ hx
        obtain ⟨y, hy, hyref⟩ := List.mem_map.mp hxref
        obtain ⟨z, hz, hzref⟩ := h3 y hy
        exact ⟨z, hz, by rw [hzref, hyref]⟩
      · intro it hit
        rcases List.mem_cons.mp hit with rfl | hit2
        · obtain ⟨z, hz, hzref⟩ := h3 u (mem_storeSet_self hemem u)
          refine ⟨z, hz, ?_⟩
          rw [hzref, href_u, heref]
        · exact h4 it hit2
    | none =>
      have hl2 : s.find?
          (fun x => toLowerCase x.reference = toLowerCase item.reference) =
            none := hl
      have hnomatch : ∀ x ∈ s,
          ¬ toLowerCase x.reference = toLowerCase item.reference := by
        have h := List.find?_eq_none.mp hl2
        intro x hx
        simpa using h x hx
      simp only [importStock, hl]
      rw [storeSet_of_forall_ne _ (fun x hx => hfresh n (Nat.le_refl n) x hx)]
      set w : StockItem :=
        { id := freshId n, reference := item.reference, name := item.name,
          currentStock := item.currentStock,
          pendingArrival := orZero item.pendingArrival,
          threshold := orZero item.threshold, unit := item.unit,
          location := item.location, lastUpdated := now } with hw
      have hids2 : idsNodup (s ++ [w]) := by
        unfold idsNodup
        rw [List.map_append]
        refine List.Nodup.append (by exact hids) (by simp) ?_
        intro a ha hb
        simp only [List.map_cons, List.map_nil] at hb
        rw [List.mem_singleton] at hb
        obtain ⟨y, hy, hyid⟩ := List.mem_map.mp ha
        apply hfresh n (Nat.le_refl n) y hy
        rw [hyid, hb]
      have hrefs2 : caselessRefsNodup (s ++ [w]) := by
        unfold caselessRefsNodup
        rw [List.map_append]
        refine List.Nodup.append (by exact hrefs) (by simp) ?_
        intro a ha hb
        simp only [List.map_cons, List.map_nil] at hb
        rw [List.mem_singleton] at hb
        obtain ⟨y, hy, hyref⟩ := List.mem_map.mp ha
        apply hnomatch y hy
        rw [hyref, hb]
      have hfresh2 : ∀ k, n + 1 ≤ k → ∀ x ∈ s ++ [w], x.id ≠ freshId k := by
        intro k hk x hx
        rcases List.mem_append.mp hx with h | h
        · exact hfresh k (Nat.le_of_succ_le hk) x h
        · rw [List.mem_singleton] at h
          subst h
          intro hcontra
          have h2 : freshId n = freshId k := hcontra
          have := hinj h2
          omega
      obtain ⟨h1, h2, h3, h4⟩ := ih (s ++ [w]) (n + 1) hids2 hfresh2 hrefs2
      refine ⟨h1, h2, ?_, ?_⟩
      · intro x hx
        exact h3 x (List.mem_append.mpr (Or.inl hx))
      · intro it hit
        rcases List.mem_cons.mp hit with rfl | hit2
        · obtain ⟨z, hz, hzref⟩ := h3 w
            (List.mem_append.mpr (Or.inr (List.mem_singleton.mpr rfl)))
          refine ⟨z, hz, ?_⟩
          rw [hzref, hw]
        · exact h4 it hit2

/-- C10: when the store contains no two records with case-insensitively
equal references (and, as the real `Map` guarantees, no duplicate ids, with
the generated ids fresh), `importStock` preserves that uniqueness; moreover
any two records of the resulting store with caselessly equal references are
the same record, and every imported row has a representative record —
so rows of one batch sharing a caselessly equal reference all collapse onto
one record. -/
theorem importStock_caseless_unique (now : String) (freshId : Nat → String)
    (s : Store) (n : Nat) (items : List InsertStockItem)
    (hinj : Function.Injective freshId)
    (hids : idsNodup s)
    (hfresh : ∀ k, ∀ x ∈ s, x.id ≠ freshId k)
    (hrefs : caselessRefsNodup s) :
    caselessRefsNodup (importStock now freshId s n items).1 ∧
    (∀ y1 ∈ (importStock now freshId s n items).1,
     ∀ y2 ∈ (importStock now freshId s n items).1,
        toLowerCase y1.reference = toLowerCase y2.reference → y1 = y2) ∧
    (∀ it ∈ items, ∃ y ∈ (importStock now freshId s n items).1,
        toLowerCase y.reference = toLowerCase it.reference) := by
  obtain ⟨h1, h2, h3, h4⟩ :=
    importStock_aux now freshId hinj items s n hids (fun k _ => hfresh k) hrefs
  refine ⟨h2, ?_, h4⟩
  intro y1 hy1 y2 hy2 heq
  exact List.inj_on_of_nodup_map (by simpa [caselessRefsNodup] using h2)
    hy1 hy2 heq

theorem freshA_inj : Function.Injective freshA := by
  intro a b h
  have h2 : (freshA a).data.length = (freshA b).data.length := by rw [h]
  simpa [freshA] using h2

/-- C10 (witness): importing two rows whose references differ only in case
(`"GL-100"` and `"gl-100"`) into the empty store keeps caseless references
unique — the two rows collapse onto a single record. -/
theorem importStock_caseless_unique_witness :
    caselessRefsNodup (importStock "t1" freshA [] 0
      [mkInsert "GL-100" "G1" 1 0 0, mkInsert "gl-100" "G2" 2 0 0]).1 ∧
    (∀ y1 ∈ (importStock "t1" freshA [] 0
        [mkInsert "GL-100" "G1" 1 0 0, mkInsert "gl-100" "G2" 2 0 0]).1,
     ∀ y2 ∈ (importStock "t1" freshA [] 0
        [mkInsert "GL-100" "G1" 1 0 0, mkInsert "gl-100" "G2" 2 0 0]).1,
        toLowerCase y1.reference = toLowerCase y2.reference → y1 = y2) ∧
    (∀ it ∈ [mkInsert "GL-100" "G1" 1 0 0, mkInsert "gl-100" "G2" 2 0 0],
      ∃ y ∈ (importStock "t1" freshA [] 0
        [mkInsert "GL-100" "G1" 1 0 0, mkInsert "gl-100" "G2" 2 0 0]).1,
        toLowerCase y.reference = toLowerCase it.reference) :=
  importStock_caseless_unique "t1" freshA [] 0
    [mkInsert "GL-100" "G1" 1 0 0, mkInsert "gl-100" "G2" 2 0 0]
    freshA_inj (by decide) (by simp) (by decide)

end Medifresh
